import Mathlib

/-!
Verification of the tile message queue (`loolwsd/MessageQueue.cpp`) and the
socket poll / stream socket core (`net/Socket.hpp`) of collabora-online.

Payloads (`std::vector<char>`) are modelled as lists of characters; the queue
(`std::deque<Payload>`) as a list whose head is the front.  `TileDesc` lives in
`TileDesc.hpp`, which is not among the given sources; its `parse` and
`intersectsWithRect` operations are modelled from the specification's
external-interface description.
-/

namespace Collabora

/-- A queue payload: the raw bytes of a message (`std::vector<char>`),
interpreted as text for queueing policy. -/
abbrev Payload := List Char

/-- Models `msg.compare(0, n, lit) == 0` on `std::string`: the first
`min n msg.length` characters of `msg` compared for equality with the whole
literal `lit`. -/
def cmpPrefixEq (n : Nat) (lit : List Char) (msg : Payload) : Bool :=
  msg.take n == lit

/-- Index of the first occurrence of `pat` in `s`, models `std::string::find`;
`none` stands for `npos`. -/
def findSub (pat : List Char) : List Char → Option Nat
  | [] => if pat.isEmpty then some 0 else none
  | c :: rest =>
    if pat.isPrefixOf (c :: rest) then some 0
    else (findSub pat rest).map (· + 1)

/-- The normalized dedup key `msg.substr(0, msg.find(" ver"))`: the text up to
the first occurrence of `" ver"`, or the whole text when absent. -/
def keyOf (msg : Payload) : Payload :=
  match findSub " ver".data msg with
  | none => msg
  | some i => msg.take i

/-- Models `tmp.find("id=") != std::string::npos`: the payload carries the
preview-tile marker. -/
def containsId (msg : Payload) : Bool :=
  (findSub "id=".data msg).isSome

/-- Modelled from the spec: the `TileDescriptor` capability of `TileDesc.hpp`
(not among the given sources) carries a pixel rectangle. -/
structure TileDesc where
  tilePosX : Int
  tilePosY : Int
  tileWidth : Int
  tileHeight : Int
deriving DecidableEq

/-- Split a character list into space-separated tokens; `acc` is the reversed
current token. -/
def splitSp : List Char → List Char → List (List Char)
  | [], acc => [acc.reverse]
  | ' ' :: rest, acc => acc.reverse :: splitSp rest []
  | c :: rest, acc => splitSp rest (c :: acc)

/-- Accumulate a decimal number from the remaining characters; fails on any
non-digit. -/
def parseDigitsAux : List Char → Nat → Option Nat
  | [], acc => some acc
  | c :: rest, acc =>
    if '0' ≤ c ∧ c ≤ '9' then parseDigitsAux rest (acc * 10 + (c.toNat - '0'.toNat))
    else none

/-- Parse a non-empty all-digit token as a number. -/
def parseDigits (s : List Char) : Option Nat :=
  if s.isEmpty then none else parseDigitsAux s 0

/-- Modelled from the spec: look up the integer parameter `name=value` among
the space-separated tokens of a tile message, tolerating extra parameters. -/
def paramOf (name : List Char) : List (List Char) → Option Int
  | [] => none
  | t :: rest =>
    if name.isPrefixOf t then
      match parseDigits (t.drop name.length) with
      | some v => some (Int.ofNat v)
      | none => paramOf name rest
    else paramOf name rest

/-- Modelled from the spec: `TileDescriptor.parse(text)` returns a descriptor
or a parse error (`TileDesc::parse` lives in `TileDesc.hpp`, outside the given
sources).  The rectangle parameters must all be present; extra parameters,
including anything after `" ver"`, are tolerated.  A payload such as
`canceltiles` fails to parse. -/
def TileDesc.parse (msg : Payload) : Option TileDesc :=
  let toks := splitSp msg []
  match paramOf "tileposx=".data toks, paramOf "tileposy=".data toks,
        paramOf "tilewidth=".data toks, paramOf "tileheight=".data toks with
  | some x, some y, some w, some h => some ⟨x, y, w, h⟩
  | _, _, _, _ => none

/-- Modelled from the spec: `intersectsWithRect(x, y, w, h)` is the
pixel-rectangle intersection test between the tile's rectangle and the given
rectangle. -/
def TileDesc.intersectsWithRect (t : TileDesc) (x y w h : Int) : Bool :=
  decide (t.tilePosX ≤ x + w) && decide (x ≤ t.tilePosX + t.tileWidth) &&
  decide (t.tilePosY ≤ y + h) && decide (y ≤ t.tilePosY + t.tileHeight)

/-- A view's cursor rectangle `CursorPosition { X, Y, Width, Height }` as kept
by `TileQueue::_cursorPositions`. -/
structure CursorPosition where
  X : Int
  Y : Int
  Width : Int
  Height : Int
deriving DecidableEq

/-- `TileQueue::priority`: parse the message as a tile and test intersection
against every registered cursor rectangle.  Modelled from the spec: a payload
that fails tile parsing is non-priority. -/
def priority (cursors : List CursorPosition) (tileMsg : Payload) : Bool :=
  match TileDesc.parse tileMsg with
  | none => false
  | some tile =>
    cursors.any (fun c => tile.intersectsWithRect c.X c.Y c.Width c.Height)

/-- `BasicTileQueue::put_impl`: a `canceltiles` payload purges every queued
payload that begins with `"tile "` and lacks the `id=` marker, then goes to
the front; any other payload falls through to `MessageQueue::put_impl`, which
appends it at the back. -/
def basicPut (q : List Payload) (value : Payload) : List Payload :=
  if value == "canceltiles".data then
    value :: q.filter (fun v => !(cmpPrefixEq 5 "tile ".data v && !containsId v))
  else
    q ++ [value]

/-- Split a list at the first element satisfying `p`: the elements before it,
the element itself, and the elements after it; `none` when no element
satisfies `p`. -/
def findSplit (p : Payload → Bool) : List Payload → Option (List Payload × Payload × List Payload)
  | [] => none
  | x :: xs =>
    if p x then some ([], x, xs)
    else
      match findSplit p xs with
      | none => none
      | some (pre, y, suf) => some (x :: pre, y, suf)

/-- The guard under which `TileQueue::put_impl` runs its deduplication scan:
queue non-empty, and `msg.compare(0, 4, "tile") == 0` or
`msg.compare(0, 10, "tilecombine") == 0` (the latter compares a 10-character
prefix with an 11-character literal). -/
def entersDedupScan (q : List Payload) (msg : Payload) : Bool :=
  !q.isEmpty && (cmpPrefixEq 4 "tile".data msg || cmpPrefixEq 10 "tilecombine".data msg)

/-- `TileQueue::put_impl`: under the dedup guard, the first queued entry whose
normalized key equals the new payload's key is replaced in place by the new
payload, and additionally bumped to the front when the new payload is
priority; with no key match the payload goes to the front when priority and
otherwise to `BasicTileQueue::put_impl`. -/
def tilePut (cursors : List CursorPosition) (q : List Payload) (value : Payload) :
    List Payload :=
  if entersDedupScan q value then
    match findSplit (fun it => keyOf it == keyOf value) q with
    | some (pre, _, suf) =>
      if priority cursors value then value :: (pre ++ suf) else pre ++ value :: suf
    | none =>
      if priority cursors value then value :: q else basicPut q value
  else
    if priority cursors value then value :: q else basicPut q value

/-- `MessageQueue::get_impl`: return and pop the front of the queue. -/
def get_impl (q : List Payload) : Option (Payload × List Payload) :=
  match q with
  | [] => none
  | x :: xs => some (x, xs)

/-- Whether a queued payload's parsed tile intersects the given cursor
rectangle: the loop-body test of `TileQueue::reprioritize`.  Modelled from the
spec for payloads that fail tile parsing: they never match. -/
def entryHits (cp : CursorPosition) (msg : Payload) : Bool :=
  match TileDesc.parse msg with
  | none => false
  | some tile => tile.intersectsWithRect cp.X cp.Y cp.Width cp.Height

/-- `TileQueue::reprioritize`: the first entry whose tile intersects the
cursor rectangle is erased and pushed to the front (a no-op when it is
already the front); entries after it are never examined. -/
def reprioritize (cp : CursorPosition) (q : List Payload) : List Payload :=
  match findSplit (entryHits cp) q with
  | none => q
  | some (pre, y, suf) => y :: (pre ++ suf)

/-- `MessageQueue::remove_if` calls `std::remove_if` and discards the returned
iterator, and no `erase` follows: the kept elements are shifted to the front
in order, the tail of the container holds leftover values, and the container
size is unchanged.  The tail values are unspecified in C++; the model leaves
the original values in place, and no theorem inspects them. -/
def remove_if (pred : Payload → Bool) (q : List Payload) : List Payload :=
  let kept := q.filter (fun v => !pred v)
  kept ++ q.drop kept.length

/-- The concrete payloads of spec scenario S1. -/
def s1a : Payload := "tile part=0 tileposx=0 tileposy=0 ver=1".data

/-- Second S1 payload, same normalized key as `s1a`, version 2. -/
def s1b : Payload := "tile part=0 tileposx=0 tileposy=0 ver=2".data

/-- The cursor rectangle registered in spec scenario S3. -/
def s3cursor : CursorPosition := ⟨100, 100, 50, 50⟩

/-- Scenario S3's tile T1, far away from `s3cursor`. -/
def tileT1 : Payload :=
  "tile part=0 width=256 height=256 tileposx=10000 tileposy=10000 tilewidth=100 tileheight=100 ver=1".data

/-- Scenario S3's tile T2, overlapping `s3cursor`. -/
def tileT2 : Payload :=
  "tile part=0 width=256 height=256 tileposx=0 tileposy=0 tilewidth=3840 tileheight=3840 ver=1".data

/-! ### `net/Socket.hpp` -/

/-- Linux `POLLIN` mask bit. -/
def POLLIN : Nat := 1

/-- Linux `POLLOUT` mask bit. -/
def POLLOUT : Nat := 4

/-- Linux `POLLERR` mask bit. -/
def POLLERR : Nat := 8

/-- Linux `POLLHUP` mask bit. -/
def POLLHUP : Nat := 16

/-- Linux `POLLNVAL` mask bit. -/
def POLLNVAL : Nat := 32

/-- `StreamSocket::getPollEvents`: `POLLIN | POLLOUT` when the output buffer
is non-empty or the handler has queued writes, else `POLLIN`. -/
def getPollEvents (outBuffer : List Char) (hasQueuedWrites : Bool) : Nat :=
  if !outBuffer.isEmpty || hasQueuedWrites then POLLIN ||| POLLOUT else POLLIN

/-- Two's-complement wrap of a value onto the C `int` (32-bit) range, for the
multiplication `timeoutMaxMs * 1000` performed on `int`. -/
def wrap32 (x : Int) : Int := (x + 2 ^ 31) % 2 ^ 32 - 2 ^ 31

/-- The timeout argument that `SocketPoll::poll(timeoutMaxMs)` passes to
`::poll`: the deadline is `now` plus a `Poco::Timespan` of
`timeoutMaxMs * 1000` microseconds (`Poco::Timestamp` counts microseconds and
the multiplication is on C `int`), and the passed value is the microsecond
difference `(timeout - now)` divided by 1000, on C++ signed integers whose
division truncates toward zero (`Int.tdiv`). -/
def pollTimeoutArg (nowUs : Int) (timeoutMaxMs : Int) : Int :=
  let timeout := nowUs + wrap32 (timeoutMaxMs * 1000)
  Int.tdiv (timeout - nowUs) 1000

/-- The incoming-message fixed-point loop of `StreamSocket::handlePoll`:
while the input buffer is non-empty and its size differs from the size
recorded before the previous handler invocation, record the old size and
invoke the handler (`f`, the handler's transformation of the input buffer).
Returns the list of buffer states passed to the successive handler
invocations, and whether the loop exited; the C++ loop has no fuel, and a
handler on which the fuel runs out here keeps it spinning there. -/
def msgLoop (f : List Char → List Char) : Nat → Nat → List Char → List (List Char) × Bool
  | 0, _, _ => ([], false)
  | fuel + 1, oldSize, buf =>
    if !buf.isEmpty && oldSize != buf.length then
      let r := msgLoop f fuel buf.length (f buf)
      (buf :: r.1, r.2)
    else
      ([], true)

/-- The handler callbacks observable on a `SocketHandlerInterface`. -/
inductive CB
  | incoming
  | writes
  | disconnect
deriving DecidableEq

/-- The environment-determined inputs of one `StreamSocket::handlePoll`
invocation: the realized poll event mask, whether `readIncomingData` reported
a clean peer close, how many handler invocations the incoming fixed-point
loop performs, whether the output buffer was empty at the `POLLOUT` check,
and whether `errno` equalled `EPIPE` at the write-block check. -/
structure PollInput where
  events : Nat
  readClosed : Bool
  nIncoming : Nat
  outBufEmpty : Bool
  epipe : Bool

/-- The local `closed` of `handlePoll` at the end of an invocation with the
given inputs: closing events, clean EOF, or `EPIPE` observed. -/
def obsClosed (i : PollInput) : Bool :=
  ((i.events &&& (POLLHUP ||| POLLERR ||| POLLNVAL)) != 0) || i.readClosed || i.epipe

/-- `Socket::HandleResult`. -/
inductive HandleResult
  | CONTINUE
  | SOCKET_CLOSED
deriving DecidableEq

/-- The non-disconnect handler callbacks of one `handlePoll` invocation: the
incoming-message loop invocations, then `performWrites` when `POLLOUT` was
set and the output buffer empty. -/
def pollBody (i : PollInput) : List CB :=
  List.replicate i.nIncoming CB.incoming ++
    (if (i.events &&& POLLOUT) != 0 && i.outBufEmpty then [CB.writes] else [])

/-- One `StreamSocket::handlePoll` invocation over the `_closed` member flag:
the handler callbacks it makes in order, the new `_closed` flag (set before
`onDisconnect` is invoked), and the returned `HandleResult` (reading the
member flag). -/
def handlePoll (i : PollInput) (closed0 : Bool) : List CB × Bool × HandleResult :=
  let cl := obsClosed i
  let closed1 := cl || closed0
  (pollBody i ++ (if cl then [CB.disconnect] else []),
   closed1,
   if closed1 then HandleResult.SOCKET_CLOSED else HandleResult.CONTINUE)

/-- Run a sequence of `handlePoll` invocations from a `_closed` state,
concatenating all handler callbacks. -/
def runPolls : List PollInput → Bool → List CB × Bool
  | [], c => ([], c)
  | i :: rest, c =>
    let r := handlePoll i c
    let r2 := runPolls rest r.2.1
    (r.1 ++ r2.1, r2.2)

/-- `StreamSocket::~StreamSocket`: invokes `onDisconnect` iff `_closed` is
still false. -/
def dtorCBs (closed : Bool) : List CB :=
  if closed then [] else [CB.disconnect]

/-- All handler callbacks over a stream socket's life: a sequence of
`handlePoll` invocations from the initial `_closed = false`, followed by
destruction. -/
def lifeTrace (inputs : List PollInput) : List CB :=
  (runPolls inputs false).1 ++ dtorCBs (runPolls inputs false).2

/-- A `handlePoll` input whose event mask is exactly `POLLHUP`: the peer hung
up, nothing was read, nothing is writable. -/
def closingInput : PollInput := ⟨POLLHUP, false, 0, false, false⟩

/-! ### Helper lemmas -/

/-- When no element satisfies `p`, the scan finds nothing. -/
theorem findSplit_eq_none (p : Payload → Bool) (l : List Payload)
    (h : ∀ e ∈ l, p e = false) : findSplit p l = none := by
  induction l with
  | nil => rfl
  | cons x xs ih =>
    have hx : p x = false := h x (List.mem_cons_self x xs)
    have hxs : findSplit p xs = none := ih (fun e he => h e (List.mem_cons_of_mem x he))
    simp [findSplit, hx, hxs]

/-- When the scan finds nothing, no element satisfies `p`. -/
theorem findSplit_none_forall (p : Payload → Bool) (l : List Payload)
    (h : findSplit p l = none) : ∀ e ∈ l, p e = false := by
  induction l with
  | nil => simp
  | cons x xs ih =>
    by_cases hx : p x = true
    · simp [findSplit, hx] at h
    · intro e he
      rcases List.mem_cons.mp he with rfl | he'
      · exact Bool.eq_false_iff.mpr hx
      · refine ih ?_ e he'
        cases hxs : findSplit p xs with
        | none => rfl
        | some r =>
          obtain ⟨pre, y, suf⟩ := r
          simp [findSplit, hx, hxs] at h

/-- A successful scan splits the list at the first element satisfying `p`. -/
theorem findSplit_spec (p : Payload → Bool) (l : List Payload) :
    ∀ pre y suf, findSplit p l = some (pre, y, suf) →
      l = pre ++ y :: suf ∧ p y = true ∧ ∀ e ∈ pre, p e = false := by
  induction l with
  | nil => intro pre y suf h; simp [findSplit] at h
  | cons x xs ih =>
    intro pre y suf h
    by_cases hx : p x = true
    · simp [findSplit, hx] at h
      obtain ⟨h1, h2, h3⟩ := h
      subst h1; subst h2; subst h3
      simp [hx]
    · rw [Bool.not_eq_true] at hx
      cases hxs : findSplit p xs with
      | none => simp [findSplit, hx, hxs] at h
      | some r =>
        obtain ⟨pre', y', suf'⟩ := r
        simp [findSplit, hx, hxs] at h
        obtain ⟨h1, h2, h3⟩ := h
        obtain ⟨hl, hy, hpre⟩ := ih pre' y' suf' hxs
        subst h1; subst h2; subst h3
        refine ⟨by simp [hl], hy, ?_⟩
        intro e he
        rcases List.mem_cons.mp he with rfl | he'
        · exact hx
        · exact hpre e he'

/-- Scanning past a `p`-free block. -/
theorem findSplit_append (p : Payload → Bool) (a b : List Payload)
    (h : ∀ e ∈ a, p e = false) :
    findSplit p (a ++ b) =
      (findSplit p b).map (fun r => (a ++ r.1, r.2.1, r.2.2)) := by
  induction a with
  | nil =>
    cases hb : findSplit p b with
    | none => simp [hb]
    | some r => obtain ⟨pre, y, suf⟩ := r; simp [hb]
  | cons x xs ih =>
    have hx : p x = false := h x (List.mem_cons_self x xs)
    have ih' := ih (fun e he => h e (List.mem_cons_of_mem x he))
    cases hb : findSplit p b with
    | none => simp [findSplit, hx, ih', hb]
    | some r =>
      obtain ⟨pre, y, suf⟩ := r
      simp [findSplit, hx, ih', hb]

/-- When no queued entry's key matches the new payload's key, the
deduplication scan fails and `TileQueue::put_impl` pushes the payload to the
front (priority) or appends it (otherwise, for a non-`canceltiles` payload). -/
theorem tilePut_fresh (cursors : List CursorPosition) (q : List Payload) (v : Payload)
    (hq : ∀ e ∈ q, (keyOf e == keyOf v) = false)
    (hnc : (v == "canceltiles".data) = false) :
    tilePut cursors q v =
      if priority cursors v then v :: q else q ++ [v] := by
  have hfs : findSplit (fun it => keyOf it == keyOf v) q = none :=
    findSplit_eq_none _ q hq
  unfold tilePut
  by_cases hg : entersDedupScan q v = true
  · rw [if_pos hg, hfs]
    by_cases hp : priority cursors v = true
    · simp [hp]
    · simp [hp, basicPut, hnc]
  · rw [if_neg hg]
    by_cases hp : priority cursors v = true
    · simp [hp]
    · simp [hp, basicPut, hnc]

set_option maxRecDepth 40000

/-! ### Claims -/

/-- C3: for every predicate and queue state, `MessageQueue::remove_if` does
not erase matched elements: the number of payloads after the call equals the
number before it (the result of `std::remove_if` is discarded). -/
theorem remove_if_length_unchanged (pred : Payload → Bool) (q : List Payload) :
    (remove_if pred q).length = q.length := by
  unfold remove_if
  have hle : (q.filter (fun v => !pred v)).length ≤ q.length :=
    List.length_filter_le _ _
  simp only [List.length_append, List.length_drop]
  omega

/-- C9: for every output-buffer state and handler answer,
`StreamSocket::getPollEvents` returns a mask containing `POLLIN`, and the
mask contains `POLLOUT` iff the output buffer is non-empty or the handler
has queued writes. -/
theorem getPollEvents_mask (outBuffer : List Char) (hqw : Bool) :
    getPollEvents outBuffer hqw &&& POLLIN = POLLIN ∧
    (getPollEvents outBuffer hqw &&& POLLOUT = POLLOUT ↔
      (outBuffer ≠ [] ∨ hqw = true)) := by
  cases outBuffer <;> cases hqw <;>
    simp [getPollEvents, POLLIN, POLLOUT] <;> decide

/-- C10: a payload enters the dedup scan of `TileQueue::put_impl` iff the
queue is non-empty and its first four characters are `tile`; the separate
`tilecombine` test, which compares a 10-character prefix with the
11-character literal, never succeeds, and a `tilecombine` payload passes the
4-character `tile` test instead. -/
theorem dedup_guard_tile_only (q : List Payload) (msg : Payload) :
    cmpPrefixEq 10 "tilecombine".data msg = false ∧
    entersDedupScan q msg = (!q.isEmpty && cmpPrefixEq 4 "tile".data msg) ∧
    cmpPrefixEq 4 "tile".data "tilecombine part=0".data = true := by
  have h10 : cmpPrefixEq 10 "tilecombine".data msg = false := by
    cases h : cmpPrefixEq 10 "tilecombine".data msg
    · rfl
    · exfalso
      have heq : msg.take 10 = "tilecombine".data := by
        simpa [cmpPrefixEq] using h
      have hlen := congrArg List.length heq
      have h11 : ("tilecombine".data).length = 11 := by decide
      rw [h11, List.length_take] at hlen
      omega
  refine ⟨h10, ?_, by decide⟩
  simp [entersDedupScan, h10]

/-- C1: for every pair of `tile`/`tilecombine` payloads with equal normalized
keys, enqueueing the second replaces the first in place, so the queue keeps
at most one entry with that key and its length does not grow; in scenario S1
(the two `s1a`, `s1b` payloads, no cursors) the queue is exactly `[s1b]` and
the front payload ends with `" ver=2"`. -/
theorem tile_dedup_unique (cursors : List CursorPosition) (q : List Payload)
    (p1 p2 : Payload)
    (h1 : cmpPrefixEq 4 "tile".data p1 = true)
    (h2 : cmpPrefixEq 4 "tile".data p2 = true)
    (hk : keyOf p1 = keyOf p2)
    (hq : ∀ e ∈ q, keyOf e ≠ keyOf p2) :
    ((tilePut cursors (tilePut cursors q p1) p2).countP
        (fun e => keyOf e == keyOf p2) = 1 ∧
      (tilePut cursors (tilePut cursors q p1) p2).length = q.length + 1) ∧
    tilePut [] (tilePut [] [] s1a) s1b = [s1b] ∧
    " ver=2".data.isSuffixOf s1b = true := by
  have hs1 : tilePut [] (tilePut [] [] s1a) s1b = [s1b] := by decide
  have hsfx : " ver=2".data.isSuffixOf s1b = true := by decide
  have hnc1 : (p1 == "canceltiles".data) = false := by
    cases hb : p1 == "canceltiles".data
    · rfl
    · exfalso
      have : p1 = "canceltiles".data := eq_of_beq hb
      subst this
      have : cmpPrefixEq 4 "tile".data "canceltiles".data = false := by decide
      rw [this] at h1
      exact Bool.false_ne_true h1
  have hq1 : ∀ e ∈ q, (keyOf e == keyOf p1) = false := by
    intro e he
    rw [hk]
    exact beq_eq_false_iff_ne.mpr (hq e he)
  have hq2 : ∀ e ∈ q, (keyOf e == keyOf p2) = false := fun e he =>
    beq_eq_false_iff_ne.mpr (hq e he)
  have hcnt0 : q.countP (fun e => keyOf e == keyOf p2) = 0 := by
    rw [List.countP_eq_zero]
    intro e he
    simp [hq2 e he]
  have hstep1 := tilePut_fresh cursors q p1 hq1 hnc1
  have hp2key : (keyOf p1 == keyOf p2) = true := beq_iff_eq.mpr hk
  -- the second put replaces the unique matching slot, whichever end p1 went to
  by_cases hp : priority cursors p1 = true
  · rw [hp, if_pos rfl] at hstep1
    -- first put pushed p1 to the front
    have hguard : entersDedupScan (p1 :: q) p2 = true := by
      simp [entersDedupScan, h2]
    have hfs : findSplit (fun it => keyOf it == keyOf p2) (p1 :: q) =
        some ([], p1, q) := by
      simp [findSplit, hp2key]
    have hput2 : tilePut cursors (p1 :: q) p2 = p2 :: q := by
      unfold tilePut
      rw [if_pos hguard, hfs]
      by_cases hpp : priority cursors p2 = true
      · simp [hpp]
      · simp [hpp]
    rw [hstep1, hput2]
    refine ⟨⟨?_, by simp⟩, hs1, hsfx⟩
    rw [List.countP_cons]
    simp [hcnt0, beq_self_eq_true]
  · rw [Bool.not_eq_true] at hp
    rw [hp, if_neg (by simp)] at hstep1
    -- first put appended p1 at the back
    have hguard : entersDedupScan (q ++ [p1]) p2 = true := by
      have : (q ++ [p1]).isEmpty = false := by
        cases q <;> rfl
      simp [entersDedupScan, h2, this]
    have hfs : findSplit (fun it => keyOf it == keyOf p2) (q ++ [p1]) =
        some (q, p1, []) := by
      rw [findSplit_append _ q [p1] hq2]
      simp [findSplit, hp2key]
    have hput2 : tilePut cursors (q ++ [p1]) p2 =
        if priority cursors p2 then p2 :: q else q ++ [p2] := by
      unfold tilePut
      rw [if_pos hguard, hfs]
      by_cases hpp : priority cursors p2 = true
      · simp [hpp]
      · simp [hpp]
    rw [hstep1, hput2]
    by_cases hpp : priority cursors p2 = true
    · rw [hpp, if_pos rfl]
      refine ⟨⟨?_, by simp⟩, hs1, hsfx⟩
      rw [List.countP_cons]
      simp [hcnt0, beq_self_eq_true]
    · rw [Bool.not_eq_true] at hpp
      rw [hpp, if_neg (by simp)]
      refine ⟨⟨?_, by simp⟩, hs1, hsfx⟩
      rw [List.countP_append, List.countP_cons]
      simp [hcnt0, beq_self_eq_true]

/-- C4: a payload is priority exactly when it parses as a tile whose
rectangle intersects a registered cursor rectangle; with no matching
normalized key in the queue, a priority payload is pushed to the front and a
non-priority, non-`canceltiles` payload is appended at the back; in scenario
S3 (cursor `s3cursor`, distinct-key tiles `tileT1` then `tileT2`) the queue
ends as `[tileT2, tileT1]`, so dequeuing yields T2 then T1. -/
theorem priority_placement (cursors : List CursorPosition) (q : List Payload)
    (v : Payload)
    (hq : ∀ e ∈ q, keyOf e ≠ keyOf v) :
    (∀ m, priority cursors m = true ↔
      ∃ t, TileDesc.parse m = some t ∧ ∃ c ∈ cursors,
        t.intersectsWithRect c.X c.Y c.Width c.Height = true) ∧
    (priority cursors v = true → tilePut cursors q v = v :: q) ∧
    (priority cursors v = false → v ≠ "canceltiles".data →
      tilePut cursors q v = q ++ [v]) ∧
    tilePut [s3cursor] (tilePut [s3cursor] [] tileT1) tileT2 = [tileT2, tileT1] ∧
    get_impl [tileT2, tileT1] = some (tileT2, [tileT1]) ∧
    get_impl [tileT1] = some (tileT1, []) := by
  have hchar : ∀ m, priority cursors m = true ↔
      ∃ t, TileDesc.parse m = some t ∧ ∃ c ∈ cursors,
        t.intersectsWithRect c.X c.Y c.Width c.Height = true := by
    intro m
    unfold priority
    cases hp : TileDesc.parse m with
    | none => simp
    | some t => simp [List.any_eq_true]
  have hq' : ∀ e ∈ q, (keyOf e == keyOf v) = false := fun e he =>
    beq_eq_false_iff_ne.mpr (hq e he)
  refine ⟨hchar, ?_, ?_, by decide, by decide, by decide⟩
  · intro hp
    have hnc : (v == "canceltiles".data) = false := by
      cases hb : v == "canceltiles".data
      · rfl
      · exfalso
        have : v = "canceltiles".data := eq_of_beq hb
        subst this
        have hmid : priority cursors "canceltiles".data = false := by
          unfold priority
          rw [show TileDesc.parse "canceltiles".data = none from by decide]
        rw [hmid] at hp
        exact Bool.false_ne_true hp
    rw [tilePut_fresh cursors q v hq' hnc, hp, if_pos rfl]
  · intro hp hv
    have hnc : (v == "canceltiles".data) = false := beq_eq_false_iff_ne.mpr hv
    rw [tilePut_fresh cursors q v hq' hnc, hp, if_neg (by simp)]

/-- C2: for every queue state and cursor state, enqueueing `canceltiles`
(which fails tile parsing and is therefore non-priority) removes every entry
beginning with `"tile "` that lacks the `id=` marker, keeps all other
entries in order, and places `canceltiles` at position 0. -/
theorem tilePut_canceltiles (cursors : List CursorPosition) (q : List Payload) :
    TileDesc.parse "canceltiles".data = none ∧
    priority cursors "canceltiles".data = false ∧
    tilePut cursors q "canceltiles".data =
      "canceltiles".data ::
        q.filter (fun v => !(cmpPrefixEq 5 "tile ".data v && !containsId v)) := by
  have hparse : TileDesc.parse "canceltiles".data = none := by decide
  have hpr : priority cursors "canceltiles".data = false := by
    unfold priority
    rw [hparse]
  have h4 : cmpPrefixEq 4 "tile".data "canceltiles".data = false := by decide
  have h10 : cmpPrefixEq 10 "tilecombine".data "canceltiles".data = false := by decide
  have hguard : entersDedupScan q "canceltiles".data = false := by
    simp [entersDedupScan, h4, h10]
  refine ⟨hparse, hpr, ?_⟩
  unfold tilePut
  rw [hguard]
  simp only [Bool.false_eq_true, if_false, hpr, basicPut, beq_self_eq_true, if_true]

/-- C5: for every cursor rectangle and queue state, `TileQueue::reprioritize`
either finds no intersecting entry and leaves the queue unchanged, or moves
the front-most intersecting entry to index 0, leaving the relative order of
all other entries intact; and it is idempotent. -/
theorem reprioritize_first_hit_idem (cp : CursorPosition) (q : List Payload) :
    ((∀ e ∈ q, entryHits cp e = false) ∧ reprioritize cp q = q ∨
      ∃ pre y suf, q = pre ++ y :: suf ∧ entryHits cp y = true ∧
        (∀ e ∈ pre, entryHits cp e = false) ∧
        reprioritize cp q = y :: (pre ++ suf)) ∧
    reprioritize cp (reprioritize cp q) = reprioritize cp q := by
  cases hfs : findSplit (entryHits cp) q with
  | none =>
    have hall := findSplit_none_forall _ _ hfs
    have hrq : reprioritize cp q = q := by
      unfold reprioritize
      rw [hfs]
    exact ⟨Or.inl ⟨hall, hrq⟩, by rw [hrq, hrq]⟩
  | some r =>
    obtain ⟨pre, y, suf⟩ := r
    obtain ⟨hl, hy, hpre⟩ := findSplit_spec _ q pre y suf hfs
    have hrq : reprioritize cp q = y :: (pre ++ suf) := by
      unfold reprioritize
      rw [hfs]
    refine ⟨Or.inr ⟨pre, y, suf, hl, hy, hpre, hrq⟩, ?_⟩
    rw [hrq]
    unfold reprioritize
    simp [findSplit, hy]

/-- C6 counterexample: at `timeoutMaxMs = 5000` (and `now = 0`) the value
passed to `::poll` is exactly the millisecond count 5000, refuting the claim
that for every non-negative `timeoutMaxMs` the passed value differs from it:
the microsecond difference divided by 1000 is a millisecond count. -/
theorem pollTimeoutArg_is_ms_at_5000 :
    (0 : Int) ≤ 5000 ∧ pollTimeoutArg 0 5000 = 5000 := by
  exact ⟨by decide, by decide⟩

/-- C6 amended: for every current time and every non-negative `timeoutMaxMs`
whose microsecond product does not overflow the C `int`, the timeout passed
to the kernel multiplexer equals `timeoutMaxMs`: the computation converts
milliseconds to microseconds and back, and the unit is correct. -/
theorem pollTimeoutArg_identity (nowUs t : Int) (h0 : 0 ≤ t)
    (h1 : t * 1000 < 2 ^ 31) :
    pollTimeoutArg nowUs t = t := by
  have hw : wrap32 (t * 1000) = t * 1000 := by
    unfold wrap32
    omega
  show Int.tdiv (nowUs + wrap32 (t * 1000) - nowUs) 1000 = t
  rw [hw]
  have hsub : nowUs + t * 1000 - nowUs = t * 1000 := by ring
  rw [hsub]
  exact Int.mul_tdiv_cancel t (by norm_num)

/-- Witness for the amended C6 at `now = 42 µs`, `timeoutMaxMs = 7`. -/
theorem pollTimeoutArg_identity_witness :
    (0 : Int) ≤ 7 ∧ (7 : Int) * 1000 < 2 ^ 31 ∧ pollTimeoutArg 42 7 = 7 :=
  ⟨by decide, by decide, pollTimeoutArg_identity 42 7 (by decide) (by decide)⟩

/-- Once the `_closed` flag is set, further `handlePoll` invocations never
reset it. -/
theorem runPolls_flag_true (xs : List PollInput) : (runPolls xs true).2 = true := by
  induction xs with
  | nil => rfl
  | cons x rest ih => simpa [runPolls, handlePoll] using ih

/-- The pre-disconnect callbacks of one `handlePoll` invocation never include
`onDisconnect`. -/
theorem disconnect_not_in_pollBody (i : PollInput) : CB.disconnect ∉ pollBody i := by
  intro h
  rw [pollBody, List.mem_append] at h
  rcases h with h | h
  · rw [List.mem_replicate] at h
    exact absurd h.2 (by decide)
  · by_cases hc : ((i.events &&& POLLOUT) != 0 && i.outBufEmpty) = true
    · rw [if_pos hc] at h
      simp at h
    · rw [if_neg hc] at h
      exact absurd h (List.not_mem_nil _)

/-- A run of `handlePoll` invocations that leaves `_closed` false never
invoked `onDisconnect`. -/
theorem runPolls_false_no_disconnect (xs : List PollInput)
    (h : (runPolls xs false).2 = false) :
    CB.disconnect ∉ (runPolls xs false).1 := by
  induction xs with
  | nil => simp [runPolls]
  | cons x rest ih =>
    rw [runPolls] at h ⊢
    by_cases hc : obsClosed x = true
    · exfalso
      simp only [handlePoll, hc, Bool.true_or] at h
      rw [runPolls_flag_true] at h
      exact absurd h (by decide)
    · rw [Bool.not_eq_true] at hc
      simp only [handlePoll, hc, Bool.false_or] at h ⊢
      intro hmem
      simp only [Bool.false_eq_true, if_false, List.append_nil, List.mem_append] at hmem
      rcases hmem with hm | hm
      · exact disconnect_not_in_pollBody x hm
      · exact ih h hm

/-- Splitting a run of `handlePoll` invocations at an append. -/
theorem runPolls_append (a b : List PollInput) (c : Bool) :
    runPolls (a ++ b) c =
      ((runPolls a c).1 ++ (runPolls b (runPolls a c).2).1,
       (runPolls b (runPolls a c).2).2) := by
  induction a generalizing c with
  | nil => simp [runPolls]
  | cons x xs ih => simp [runPolls, ih, List.append_assoc]

/-- C7 amended: across any sequence of `handlePoll` invocations followed by
destruction, provided no invocation follows one that set the `_closed` flag
(as `SocketPoll` guarantees by erasing a socket that returned
`SOCKET_CLOSED`), the handler's `onDisconnect` is invoked exactly once, as
the last callback: `handlePoll` sets the flag before invoking it, and the
destructor invokes it only when the flag is still false. -/
theorem onDisconnect_once (inputs : List PollInput)
    (h : (runPolls inputs.dropLast false).2 = false) :
    ∃ pre, lifeTrace inputs = pre ++ [CB.disconnect] ∧ CB.disconnect ∉ pre := by
  cases inputs using List.reverseRecOn with
  | nil =>
    exact ⟨[], by simp [lifeTrace, runPolls, dtorCBs], by simp⟩
  | append_singleton ys y =>
    rw [List.dropLast_concat] at h
    have hno := runPolls_false_no_disconnect ys h
    refine ⟨(runPolls ys false).1 ++ pollBody y, ?_, ?_⟩
    · unfold lifeTrace
      rw [runPolls_append, h]
      by_cases hc : obsClosed y = true
      · simp [runPolls, handlePoll, hc, dtorCBs, List.append_assoc]
      · rw [Bool.not_eq_true] at hc
        simp [runPolls, handlePoll, hc, dtorCBs, List.append_assoc]
    · intro hm
      rcases List.mem_append.mp hm with hm | hm
      · exact hno hm
      · exact disconnect_not_in_pollBody y hm

/-- Witness for the amended C7: a single hanging-up `handlePoll` invocation
followed by destruction yields exactly one trailing `onDisconnect`. -/
theorem onDisconnect_once_witness :
    (runPolls ([closingInput].dropLast) false).2 = false ∧
    ∃ pre, lifeTrace [closingInput] = pre ++ [CB.disconnect] ∧
      CB.disconnect ∉ pre :=
  ⟨by decide, onDisconnect_once [closingInput] (by decide)⟩

/-- C7 counterexample: over the unrestricted sequences of `handlePoll`
invocations that the claim quantifies, two invocations that both observe
`POLLHUP` make `handlePoll` invoke `onDisconnect` twice — the second
invocation recomputes its local `closed` and does not consult the already-set
`_closed` flag before calling `onDisconnect` again. -/
theorem lifeTrace_double_close :
    (lifeTrace [closingInput, closingInput]).count CB.disconnect = 2 := by
  decide

/-- A non-empty invocation trace of the incoming-message loop starts with the
initial buffer, and the initial guard held. -/
theorem msgLoop_start (f : List Char → List Char) (fuel old : Nat) (buf : List Char)
    (h : (msgLoop f fuel old buf).1 ≠ []) :
    (msgLoop f fuel old buf).1.head? = some buf ∧ buf ≠ [] ∧ old ≠ buf.length := by
  cases fuel with
  | zero => simp [msgLoop] at h
  | succ n =>
    by_cases hg : (!buf.isEmpty && old != buf.length) = true
    · have h1 : buf ≠ [] := by
        intro hb
        subst hb
        simp at hg
      have h2 : old ≠ buf.length := by
        intro hb
        rw [hb] at hg
        simp at hg
      refine ⟨?_, h1, h2⟩
      simp [msgLoop, hg]
    · exfalso
      apply h
      simp only [msgLoop]
      rw [if_neg hg]

/-- Invariant of the incoming-message loop: consecutive invocation buffers
are related by the handler and strictly shrink; a finished empty trace means
the initial guard failed; a finished trace's last invocation left the buffer
empty or its size unchanged. -/
theorem msgLoop_spec (f : List Char → List Char)
    (hf : ∀ b, (f b).length ≤ b.length) :
    ∀ (fuel old : Nat) (buf : List Char),
      List.Chain' (fun a b => b = f a ∧ b ≠ [] ∧ b.length < a.length)
        (msgLoop f fuel old buf).1 ∧
      ((msgLoop f fuel old buf).2 = true → (msgLoop f fuel old buf).1 = [] →
        buf = [] ∨ old = buf.length) ∧
      ((msgLoop f fuel old buf).2 = true →
        ∀ a, (msgLoop f fuel old buf).1.getLast? = some a →
          f a = [] ∨ (f a).length = a.length) := by
  intro fuel
  induction fuel with
  | zero =>
    intro old buf
    refine ⟨by simp [msgLoop], ?_, ?_⟩
    · intro hfin
      simp [msgLoop] at hfin
    · intro hfin
      simp [msgLoop] at hfin
  | succ n ih =>
    intro old buf
    by_cases hg : (!buf.isEmpty && old != buf.length) = true
    · have hrw : msgLoop f (n + 1) old buf =
          (buf :: (msgLoop f n buf.length (f buf)).1,
           (msgLoop f n buf.length (f buf)).2) := by
        simp [msgLoop, hg]
      obtain ⟨ihc, ihe, ihl⟩ := ih buf.length (f buf)
      rw [hrw]
      refine ⟨?_, ?_, ?_⟩
      · rw [List.chain'_cons']
        refine ⟨?_, ihc⟩
        intro b hb
        have hne : (msgLoop f n buf.length (f buf)).1 ≠ [] := by
          intro hnil
          rw [hnil] at hb
          simp at hb
        obtain ⟨hh, hne2, hol⟩ := msgLoop_start f n buf.length (f buf) hne
        rw [hh] at hb
        have hbe : f buf = b := by simpa using hb
        subst hbe
        exact ⟨rfl, hne2, lt_of_le_of_ne (hf buf) (fun hc => hol hc.symm)⟩
      · intro _ hnil
        exact absurd hnil (by simp)
      · intro hfin a hlast
        cases htr : (msgLoop f n buf.length (f buf)).1 with
        | nil =>
          rw [htr] at hlast
          simp at hlast
          subst hlast
          rcases ihe hfin htr with hnil2 | heq
          · exact Or.inl hnil2
          · exact Or.inr heq.symm
        | cons c cs =>
          rw [htr] at hlast
          rw [List.getLast?_cons_cons] at hlast
          apply ihl hfin a
          rw [htr]
          exact hlast
    · have hrw : msgLoop f (n + 1) old buf = ([], true) := by
        simp only [msgLoop]
        rw [if_neg hg]
      rw [hrw]
      refine ⟨by simp, ?_, ?_⟩
      · intro _ _
        by_cases hb : buf = []
        · exact Or.inl hb
        · right
          by_contra hol
          apply hg
          have hbe : buf.isEmpty = false := by
            simpa [List.isEmpty_iff] using hb
          simp [hbe, bne_iff_ne]
          omega
      · intro _ a hlast
        simp at hlast

/-- C8: in the fixed-point loop of `StreamSocket::handlePoll`, with a handler
that never grows the input buffer, `handleIncomingMessage` is invoked again
exactly while the buffer is non-empty and shrank during the previous
invocation: successive invocation buffers strictly shrink and are non-empty,
a finished loop with no invocation had an empty buffer, a finished loop's
last invocation left the buffer empty or unchanged, and an invocation that
leaves the size unchanged ends the loop with exactly one invocation made. -/
theorem incoming_loop_shrink (f : List Char → List Char)
    (hf : ∀ b, (f b).length ≤ b.length) (fuel : Nat) (buf : List Char) :
    List.Chain' (fun a b => b = f a ∧ b ≠ [] ∧ b.length < a.length)
      (msgLoop f fuel 0 buf).1 ∧
    ((msgLoop f fuel 0 buf).2 = true → (msgLoop f fuel 0 buf).1 = [] →
      buf = []) ∧
    ((msgLoop f fuel 0 buf).2 = true →
      ∀ a, (msgLoop f fuel 0 buf).1.getLast? = some a →
        f a = [] ∨ (f a).length = a.length) ∧
    (2 ≤ fuel → buf ≠ [] → (f buf).length = buf.length →
      msgLoop f fuel 0 buf = ([buf], true)) := by
  obtain ⟨hc, he, hl⟩ := msgLoop_spec f hf fuel 0 buf
  refine ⟨hc, ?_, hl, ?_⟩
  · intro hfin hnil
    rcases he hfin hnil with h | h
    · exact h
    · exact List.length_eq_zero.mp h.symm
  · intro hfuel hne hlen
    obtain ⟨k, rfl⟩ : ∃ k, fuel = k + 1 + 1 := ⟨fuel - 2, by omega⟩
    have hbe : buf.isEmpty = false := by
      simpa [List.isEmpty_iff] using hne
    have hlen0 : buf.length ≠ 0 := fun hc0 => hne (List.length_eq_zero.mp hc0)
    have hg1 : (!buf.isEmpty && (0 : Nat) != buf.length) = true := by
      simp [hbe, bne_iff_ne]
      omega
    have hg2 : (!(f buf).isEmpty && buf.length != (f buf).length) = false := by
      rw [hlen]
      simp
    have e2 : msgLoop f (k + 1) buf.length (f buf) = ([], true) := by
      simp only [msgLoop]
      rw [if_neg (by simp [hg2])]
    have e1 : msgLoop f (k + 1 + 1) 0 buf =
        (buf :: (msgLoop f (k + 1) buf.length (f buf)).1,
         (msgLoop f (k + 1) buf.length (f buf)).2) := by
      simp [msgLoop, hg1]
    rw [e1, e2]

/-- Witness for C8 with the one-byte-consuming handler on a two-byte buffer. -/
theorem incoming_loop_shrink_witness :
    (∀ b : List Char, ((fun l => List.drop 1 l) b).length ≤ b.length) ∧
    List.Chain' (fun a b => b = (fun l => List.drop 1 l) a ∧ b ≠ [] ∧
        b.length < a.length)
      (msgLoop (fun l => List.drop 1 l) 5 0 ['a', 'b']).1 := by
  have hf : ∀ b : List Char, ((fun l => List.drop 1 l) b).length ≤ b.length := by
    intro b
    simp
  exact ⟨hf, (incoming_loop_shrink (fun l => List.drop 1 l) hf 5 ['a', 'b']).1⟩

/-- Witness for C1 at scenario S1's payloads with an empty queue and no
cursors. -/
theorem tile_dedup_unique_witness :
    cmpPrefixEq 4 "tile".data s1a = true ∧
    cmpPrefixEq 4 "tile".data s1b = true ∧
    keyOf s1a = keyOf s1b ∧
    (∀ e ∈ ([] : List Payload), keyOf e ≠ keyOf s1b) ∧
    tilePut [] (tilePut [] [] s1a) s1b = [s1b] :=
  ⟨by decide, by decide, by decide, by simp,
   (tile_dedup_unique [] [] s1a s1b (by decide) (by decide) (by decide)
     (by simp)).2.1⟩

/-- Witness for C4 at scenario S3's cursor and tiles, empty queue. -/
theorem priority_placement_witness :
    (∀ e ∈ ([] : List Payload), keyOf e ≠ keyOf tileT2) ∧
    tilePut [s3cursor] (tilePut [s3cursor] [] tileT1) tileT2 = [tileT2, tileT1] :=
  ⟨by simp, (priority_placement [s3cursor] [] tileT2 (by simp)).2.2.2.1⟩

end Collabora
